import Mathlib

/-
Verification development for the parameter-propagation and event-construction
core of the monzo/slog structured-logging library.

Shallow embedding conventions:
- Go strings are Lean `String`s; Go `map[string]string` values are modelled as
  association lists (`StrMap`) with Go-map semantics: assignment appends the
  pair and lookup (`mget`) returns the value of the *last* binding for a key,
  so later assignments overwrite earlier ones.  Two maps are compared through
  `mget` (key-extensional equality `MEq`), never through the list spine.
- Go heap aliasing of `map[string]string` values (needed because
  `WithParams` stores the caller's map by reference) is modelled by a store
  `St` holding the maps, addressed by `Nat` references.
- External collaborators (the uuid generator, the clock, `fmt.Sprintf`,
  `encoding/json`, the `terrors` display form) are modelled by explicit
  inputs or by small executable stand-ins, documented at each definition.
-/

set_option autoImplicit false

namespace Slog

/-- Go `map[string]string` (the source's `type params map[string]string`),
modelled as an association list where assignment appends and lookup takes the
last binding. -/
abbrev StrMap := List (String × String)

/-- Go map lookup `m[k]`: the value of the last binding of `k`, if any. -/
def mget : StrMap → String → Option String
  | [], _ => none
  | kv :: t, k =>
    match mget t k with
    | some v => some v
    | none => if kv.1 = k then some kv.2 else none

/-- Right-biased overriding of optional lookups: `ovr x y` is `y` when `y` is
present and `x` otherwise.  `mget (a ++ b) k = ovr (mget a k) (mget b k)`. -/
def ovr (x y : Option String) : Option String :=
  match y with
  | some v => some v
  | none => x

/-- Key-extensional equality of Go maps: equal lookups at every key. -/
def MEq (a b : StrMap) : Prop := ∀ k, mget a k = mget b k

end Slog

namespace Slog

/- ===== FormatScanner ===== -/

/-- Printf flag characters recognised by the scanner. -/
def isFmtFlag (c : Char) : Bool :=
  c = '+' || c = '-' || c = '0' || c = '#' || c = ' '

/-- Decimal digit test. -/
def isDigitC (c : Char) : Bool :=
  '0' ≤ c && c ≤ '9'

/-- Numeric value of a digit run. -/
def digitsVal (ds : List Char) : Nat :=
  ds.foldl (fun a c => a * 10 + (c.toNat - 48)) 0

/-- Parse an optional explicit argument index `[n]`; on success the implicit
argument counter is reset to `n`, otherwise the input is left untouched. -/
def parseArgIndex (l : List Char) (argNum : Nat) : Nat × List Char :=
  match l with
  | '[' :: r =>
    let ds := r.takeWhile isDigitC
    match r.drop ds.length with
    | ']' :: r2 => if ds.isEmpty then (argNum, l) else (digitsVal ds, r2)
    | _ => (argNum, l)
  | _ => (argNum, l)

/-- Parse a width or precision: a `*` consumes one operand (advancing the
argument counter and recording it in the running maximum), a digit run is
skipped. -/
def parseStarOrDigits (l : List Char) (argNum maxArg : Nat) : Nat × Nat × List Char :=
  match l with
  | '*' :: r => (argNum + 1, max maxArg argNum, r)
  | _ => (argNum, maxArg, l.dropWhile isDigitC)

/-- Parse one directive body (the characters after a `%` that is not `%%`):
flags, optional `[n]` index, width, optional `.`precision (each width or
precision possibly `*`), an optional `[n]` index before the verb, and the verb
letter, which consumes one operand.  Returns the updated implicit argument
counter, the updated maximum operand index, and the unconsumed remainder. -/
def parseDirective (l : List Char) (argNum maxArg : Nat) : Nat × Nat × List Char :=
  let l1 := l.dropWhile isFmtFlag
  let p1 := parseArgIndex l1 argNum
  let p2 := parseStarOrDigits p1.2 p1.1 maxArg
  let p3 :=
    match p2.2.2 with
    | '.' :: l2 =>
      let q1 := parseArgIndex l2 p2.1
      parseStarOrDigits q1.2 q1.1 p2.2.1
    | _ => p2
  let p4 := parseArgIndex p3.2.2 p3.1
  match p4.2 with
  | c :: rest =>
    if c.isAlpha then (p4.1 + 1, max p3.2.1 p4.1, rest) else (p4.1, p3.2.1, rest)
  | [] => (p4.1, p3.2.1, [])

/-- Fuel-indexed scan of a format template.  Each step consumes at least one
character, so fuel equal to the template length is always sufficient; the fuel
only discharges termination and never changes the computed count. -/
def scanFmt (σfuel : Nat) (l : List Char) (argNum maxArg : Nat) : Nat :=
  match σfuel, l with
  | 0, _ => maxArg
  | _ + 1, [] => maxArg
  | fuel + 1, '%' :: '%' :: rest => scanFmt fuel rest argNum maxArg
  | fuel + 1, '%' :: rest =>
    let t := parseDirective rest argNum maxArg
    scanFmt fuel t.2.2 t.1 t.2.1
  | fuel + 1, _ :: rest => scanFmt fuel rest argNum maxArg

/-- Modelled from the spec: `countFmtOperands` (the FormatScanner of spec
§4.1).  The repository file implementing it is not present under `src/`
(only its test file `fmt_test.go` is), so the scanner is reconstructed from
the spec's directive grammar: `%%` consumes nothing; flags, an optional
explicit index `[n]` (which resets the implicit counter), width and precision
(a `*` in either consumes one extra operand) and a verb letter complete a
directive; the returned count is the number of trailing arguments the
formatting step will consume (the maximum operand index used).  Total by
construction and validated below against every case of `fmt_test.go`. -/
def countFmtOperands (s : String) : Nat :=
  scanFmt s.data.length s.data 1 0

/- ===== Go values and errors ===== -/

/-- Go error values reaching this library: either a plain error (anything
whose only observable is its display string) or a `terrors.Error` carrying a
code, a message and string parameters. -/
inductive GoErr where
  | simple (msg : String)
  | terror (code : String) (message : String) (params : StrMap)
deriving DecidableEq

/-- Display string of an error (`err.Error()` / `fmt.Sprintf("%v", err)`).
The `terrors` library is external; its display form is modelled as
`code ++ ": " ++ message`. -/
def errString : GoErr → String
  | GoErr.simple m => m
  | GoErr.terror code message _ => code ++ ": " ++ message

/-- Dynamic (`interface{}`) values passed to `Eventf`, one constructor per
dynamic type the source inspects: strings, ints, `nil`, errors,
`map[string]string`, `map[string]interface{}`, and values implementing the
`logMetadataProvider` interface. -/
inductive GoVal where
  | vstr (s : String)
  | vint (n : Int)
  | vnil
  | verr (e : GoErr)
  | vstrMap (m : StrMap)
  | vrawMap (m : List (String × GoVal))
  | vprov (m : StrMap)

/-- Go `map[string]interface{}`, same modelling as `StrMap`. -/
abbrev RawMap := List (String × GoVal)

/-- Lookup in a `map[string]interface{}` (last binding wins). -/
def rawGet : RawMap → String → Option GoVal
  | [], _ => none
  | kv :: t, k =>
    match rawGet t k with
    | some v => some v
    | none => if kv.1 = k then some kv.2 else none

/-- Does the dynamic value satisfy the `error` interface? -/
def isErrVal : GoVal → Bool
  | GoVal.verr _ => true
  | _ => false

/-- Does the dynamic type assert `.(map[string]string)` succeed? -/
def isStrMapVal : GoVal → Bool
  | GoVal.vstrMap _ => true
  | _ => false

/-- Does the dynamic type assert `.(map[string]interface{})` succeed? -/
def isRawMapVal : GoVal → Bool
  | GoVal.vrawMap _ => true
  | _ => false

/-- The error held by a `verr` value (callers guard with `isErrVal`). -/
def errOf : GoVal → GoErr
  | GoVal.verr e => e
  | _ => GoErr.simple ""

/-- Rendering of a map's entries, used by the `fmt` stand-in. -/
def mapEntriesString (m : StrMap) : String :=
  String.intercalate " " (m.map fun kv => kv.1 ++ ":" ++ kv.2)

/-- Model of the external `fmt` rendering of a single value (`fmt.Sprint`).
Nested `map[string]interface{}` contents are abbreviated; no theorem below
depends on rendered text beyond it being a fixed function of the value. -/
def goValString : GoVal → String
  | GoVal.vstr s => s
  | GoVal.vint n => toString n
  | GoVal.vnil => "<nil>"
  | GoVal.verr e => errString e
  | GoVal.vstrMap m => "map[" ++ mapEntriesString m ++ "]"
  | GoVal.vrawMap _ => "map[..]"
  | GoVal.vprov m => "map[" ++ mapEntriesString m ++ "]"

/-- Rendering of surplus formatting operands (Go's `%!(EXTRA ...)` artifact),
simplified. -/
def goSprintfExtra (args : List GoVal) (acc : String) : String :=
  if args.isEmpty then acc
  else acc ++ "%!(EXTRA " ++ String.intercalate " " (args.map goValString) ++ ")"

/-- Model of the external `fmt.Sprintf` collaborator, simplified: `%%` is a
literal percent, any `%verb` consumes one operand rendered by `goValString`
(flags and widths are not interpreted), missing operands leave a
`%!x(MISSING)` artifact and surplus operands an `%!(EXTRA ...)` artifact. -/
def goSprintfAux : List Char → List GoVal → String → String
  | [], args, acc => goSprintfExtra args acc
  | '%' :: '%' :: rest, args, acc => goSprintfAux rest args (acc ++ "%")
  | '%' :: c :: rest, args, acc =>
    if c.isAlpha then
      match args with
      | a :: t => goSprintfAux rest t (acc ++ goValString a)
      | [] => goSprintfAux rest [] (acc ++ "%!" ++ String.mk [c] ++ "(MISSING)")
    else goSprintfAux (c :: rest) args (acc ++ "%")
  | c :: rest, args, acc => goSprintfAux rest args (acc ++ String.mk [c])

/-- See `goSprintfAux`. -/
def goSprintf (template : String) (args : List GoVal) : String :=
  goSprintfAux template.data args ""

/- ===== ParamChain: embedding of params.go ===== -/

/-- A `context.Context` as this library observes it: either a root context
carrying no `paramNode`, or a context produced by `WithParams`, wrapping a
parent and referencing a `paramNode` in the store (`context.WithValue` with
the private key; `ctx.Value` returns the nearest node, i.e. the head). -/
inductive Ctx where
  | background : Ctx
  | withNode (r : Nat) (parent : Ctx) : Ctx
deriving DecidableEq

/-- The source's `paramNode`.  `Parent` and `ChildParams` are the values
passed to `slog.WithParams`; `ChildParams` is a *reference* into the map
store, because `WithParams` stores the caller's map without copying.
`mergedParams` is the lazily populated cache (`nil` when unset). -/
structure NodeData where
  Parent : Ctx
  ChildParams : Nat
  mergedParams : Option StrMap

/-- The mutable store: the heap of `map[string]string` values (addressed by
`Nat` references) and the allocated `paramNode`s (a node's reference is its
allocation index).  Only the caches and caller-held maps are ever mutated,
matching the source's mutability discipline. -/
structure St where
  maps : List StrMap
  nodes : List NodeData

/-- Dereference a `paramNode`. -/
def getNode (σ : St) (r : Nat) : Option NodeData := σ.nodes.get? r

/-- Dereference a map (absent references read as empty, unreachable for
references produced by `allocMap`). -/
def getMap (σ : St) (r : Nat) : StrMap := (σ.maps.get? r).getD []

/-- A caller creating a `map[string]string` value: allocates it in the store
and returns its reference. -/
def allocMap (σ : St) (m : StrMap) : St × Nat :=
  ({ σ with maps := σ.maps ++ [m] }, σ.maps.length)

/-- A caller mutating their map (`m[k] = v`) through its reference. -/
def setMapKey (σ : St) (r : Nat) (k v : String) : St :=
  { σ with maps := σ.maps.set r (getMap σ r ++ [(k, v)]) }

/-- The source's `WithParams`: wraps `parent` with a new `paramNode` whose
`ChildParams` is the caller's map reference `mr` (no copy is taken) and whose
cache is unset. -/
def WithParams (σ : St) (parent : Ctx) (mr : Nat) : St × Ctx :=
  ({ σ with nodes := σ.nodes ++ [{ Parent := parent, ChildParams := mr, mergedParams := none }] },
   Ctx.withNode σ.nodes.length parent)

/-- The source's `WithParam`: shorthand for `WithParams` with a fresh
single-entry map. -/
def WithParam (σ : St) (parent : Ctx) (k v : String) : St × Ctx :=
  let a := allocMap σ [(k, v)]
  WithParams a.1 parent a.2

/-- The store before any allocation. -/
def emptySt : St := { maps := [], nodes := [] }

/-- The source's `paramNodeFromContext`: `nil` contexts and contexts without
a node yield `nil`; otherwise the nearest stored node.  (The defensive
non-`*paramNode` branch of the source is unrepresentable here.) -/
def paramNodeFromContext : Option Ctx → Option Nat
  | none => none
  | some Ctx.background => none
  | some (Ctx.withNode r _) => some r

/-- The source's `collectAllParamsAssumingReadLock`, accumulating into `res`:
use a node's cache when populated, otherwise collect the parent chain first
and then overlay the node's own params (child wins).  Go map overlaying
`res[k] = v` is list append under last-binding-wins lookup.  The fuel only
discharges termination (the source recurses on the acyclic parent chain);
`r + 1` is always sufficient because parent references are strictly smaller
than the node's own reference. -/
def collectAllParams (σ : St) : Nat → Nat → StrMap → StrMap
  | 0, _, res => res
  | fuel + 1, r, res =>
    match getNode σ r with
    | none => res
    | some nd =>
      match nd.mergedParams with
      | some cached => res ++ cached
      | none =>
        let res1 :=
          match paramNodeFromContext (some nd.Parent) with
          | some pr => collectAllParams σ fuel pr res
          | none => res
        res1 ++ getMap σ nd.ChildParams

/-- The source's `paramNode.params()`: return (a copy of) the cache when
populated; otherwise collect the full chain, populate the cache, and return
(a copy of) the result.  Copies are implicit since maps are returned by
value here. -/
def nodeParams (σ : St) (r : Nat) : St × StrMap :=
  match getNode σ r with
  | none => (σ, [])
  | some nd =>
    match nd.mergedParams with
    | some cached => (σ, cached)
    | none =>
      let result := collectAllParams σ (r + 1) r []
      ({ σ with nodes := σ.nodes.set r { nd with mergedParams := some result } }, result)

/-- The source's `Params`: the flattened parameters visible from a context,
empty (and never failing) for `nil` or node-less contexts.  Returns the
possibly cache-updated store alongside the map. -/
def Params (σ : St) (ctx : Option Ctx) : St × StrMap :=
  match paramNodeFromContext ctx with
  | none => (σ, [])
  | some r => nodeParams σ r

/-- A sequence of `Params` calls, keeping only the store: used to state that
intermediate resolves are semantically transparent. -/
def runResolves (σ : St) : List Ctx → St
  | [] => σ
  | c :: t => runResolves (Params σ (some c)).1 t

/-- A caller binding a map literal: allocate the map, then `WithParams`. -/
def bindMap (σ : St) (c : Ctx) (m : StrMap) : St × Ctx :=
  let a := allocMap σ m
  WithParams a.1 c a.2

/-- The parameters introduced by the node referenced at the head of a bound
context (specification side). -/
def specChild (σ : St) (r : Nat) : StrMap :=
  match getNode σ r with
  | some nd => getMap σ nd.ChildParams
  | none => []

/-- Specification denotation of a context's visible parameters, following the
spec's §4.2: the union of ancestor bindings overlaid root-to-leaf, so nearer
bindings win (under `mget`). -/
def ctxSpec (σ : St) : Ctx → StrMap
  | Ctx.background => []
  | Ctx.withNode r p => ctxSpec σ p ++ specChild σ r

/-- Head node reference of a context is below `n` (parents are allocated
before children, so chains of references strictly decrease). -/
def headLt : Ctx → Nat → Prop
  | Ctx.background, _ => True
  | Ctx.withNode pr _, r => pr < r

/-- Well-formed contexts over a store: every `withNode` constructor matches
an allocated node storing exactly that parent, with an allocated child map
and a strictly smaller parent reference. -/
inductive CtxOk (σ : St) : Ctx → Prop where
  | background : CtxOk σ Ctx.background
  | node (r : Nat) (p : Ctx) (nd : NodeData) :
      getNode σ r = some nd → nd.Parent = p → nd.ChildParams < σ.maps.length →
      headLt p r → CtxOk σ p → CtxOk σ (Ctx.withNode r p)

/-- Store invariant: every allocated node is well-formed and its cache, when
populated, agrees with the specification denotation of the node's context. -/
def StOk (σ : St) : Prop :=
  ∀ r nd, getNode σ r = some nd →
    CtxOk σ (Ctx.withNode r nd.Parent) ∧
    ∀ c0, nd.mergedParams = some c0 → MEq c0 (ctxSpec σ (Ctx.withNode r nd.Parent))

/- ===== Event construction: embedding of event.go ===== -/

/-- Go `type Severity int`. -/
abbrev Severity := Int

def TraceSeverity : Severity := 1
def DebugSeverity : Severity := 2
def InfoSeverity : Severity := 3
def WarnSeverity : Severity := 4
def ErrorSeverity : Severity := 5
def CriticalSeverity : Severity := 6

/-- The source's `Event`.  `nil` maps are `none`; the timestamp is the `Nat`
supplied for `time.Now()`. -/
structure Event where
  context : Option Ctx
  id : String
  timestamp : Nat
  severity : Severity
  message : String
  metadata : Option StrMap
  rawMetadata : Option RawMap
  labels : Option StrMap

/-- Go's `Event{}` zero value, returned when unique-id generation fails. -/
def zeroEvent : Event :=
  { context := none, id := "", timestamp := 0, severity := 0, message := "",
    metadata := none, rawMetadata := none, labels := none }

/-- The source's `mergeMetadata` body: add each new entry whose key is not
already present (existing entries are preserved). -/
def mergeGoFold (cur news : StrMap) : StrMap :=
  news.foldl (fun c kv => if (mget c kv.1).isSome then c else c ++ [kv]) cur

/-- The source's `mergeMetadata`: no-op on an empty update, otherwise merge
into the (possibly `nil`) current map without overwriting existing keys. -/
def mergeMetadata (current : Option StrMap) (news : StrMap) : Option StrMap :=
  if news.length = 0 then current
  else some (mergeGoFold (current.getD []) news)

/-- The source's `mergeRawMetadata` body. -/
def mergeRawFold (cur news : RawMap) : RawMap :=
  news.foldl (fun c kv => if (rawGet c kv.1).isSome then c else c ++ [kv]) cur

/-- The source's `mergeRawMetadata`. -/
def mergeRawMetadata (current : Option RawMap) (news : RawMap) : Option RawMap :=
  if news.length = 0 then current
  else some (mergeRawFold (current.getD []) news)

/-- Copy a string map into raw (`interface{}`) form, as the source does after
accepting a `map[string]string` metadata argument. -/
def strToRawMap (m : StrMap) : RawMap :=
  m.map fun kv => (kv.1, GoVal.vstr kv.2)

/-- Stringify a raw map entrywise (`fmt.Sprint` per value), as the source
does after accepting a `map[string]interface{}` metadata argument. -/
def rawToStrMap (m : RawMap) : StrMap :=
  m.map fun kv => (kv.1, goValString kv.2)

/-- Metadata extracted from the popped trailing argument (the two type
switches of the source, lines 101–121): a `map[string]string` is merged into
the `nil` metadata; a `map[string]interface{}` is merged into the `nil` raw
metadata and then stringified wholesale (producing a non-`nil`, possibly
empty map); anything else (including `nil`) contributes nothing. -/
def popMeta : Option GoVal → Option StrMap
  | some (GoVal.vstrMap m) => mergeMetadata none m
  | some (GoVal.vrawMap rm) => some (rawToStrMap ((mergeRawMetadata none rm).getD []))
  | _ => none

/-- Raw metadata from the popped trailing argument; the `map[string]string`
branch copies the merged string metadata, the raw branch keeps the merge
result (which stays `nil` for an empty update). -/
def popRaw : Option GoVal → Option RawMap
  | some (GoVal.vstrMap m) => some (strToRawMap ((mergeMetadata none m).getD []))
  | some (GoVal.vrawMap rm) => mergeRawMetadata none rm
  | _ => none

/-- The source's `logMetadataProvider` upgrade loop: every remaining argument
exposing `LogMetadata()` merges its map into the metadata (never overwriting
existing keys); the raw metadata is not updated by this loop. -/
def providerFold (ps : List GoVal) (md : Option StrMap) : Option StrMap :=
  ps.foldl
    (fun m p =>
      match p with
      | GoVal.vprov lm => mergeMetadata m lm
      | _ => m)
    md

/-- The source's `createErrorEvent`: metadata is exactly the error's display
string under the key `error`, raw metadata the error value itself, and the
message is the untouched template. -/
def createErrorEvent (ctx : Option Ctx) (sev : Severity) (id : String) (now : Nat)
    (msg : String) (e : GoErr) : Event :=
  { context := ctx, id := id, timestamp := now, severity := sev, message := msg,
    metadata := some [("error", errString e)],
    rawMetadata := some [("error", GoVal.verr e)],
    labels := none }

/-- The source's `Eventf`.  The two external collaborators are explicit
inputs: `uuidRes` is the outcome of `uuid.NewV4()` (`none` on failure) and
`now` the clock reading.  Mirrors event.go lines 68–150: default a `nil`
context to the background context; return the zero `Event` on id failure;
with at least one argument, short-circuit a lone error argument when the
template has no operands; when there are more arguments than operands, pop
the *last* argument and interpret it as metadata when it is a map; upgrade
every remaining argument (format-consumed or not) through the provider loop
(updating only the string metadata); format the message when the template
has operands.  The store is not consulted: context-ambient parameters are
never merged. -/
def Eventf (uuidRes : Option String) (now : Nat) (sev : Severity) (ctx0 : Option Ctx)
    (msg0 : String) (ps : List GoVal) : Event :=
  let ctx : Option Ctx := some (ctx0.getD Ctx.background)
  match uuidRes with
  | none => zeroEvent
  | some id =>
    if 0 < ps.length then
      let fmtOperands := countFmtOperands msg0
      if ps.length = 1 ∧ fmtOperands = 0 ∧ isErrVal (ps.headD GoVal.vnil) = true then
        createErrorEvent ctx sev id now msg0 (errOf (ps.headD GoVal.vnil))
      else
        let mp : Option GoVal := if fmtOperands < ps.length then ps.getLast? else none
        let ps1 := if fmtOperands < ps.length then ps.dropLast else ps
        let metadata := providerFold ps1 (popMeta mp)
        let rawMetadata := popRaw mp
        let msg := if 0 < fmtOperands then goSprintf msg0 ps1 else msg0
        { context := ctx, id := id, timestamp := now, severity := sev, message := msg,
          metadata := metadata, rawMetadata := rawMetadata, labels := none }
    else
      { context := ctx, id := id, timestamp := now, severity := sev, message := msg0,
        metadata := none, rawMetadata := none, labels := none }

/-- Lookup in an event's (possibly `nil`) metadata. -/
def metaGet (e : Event) (k : String) : Option String :=
  mget (e.metadata.getD []) k

/- ===== Wire errors: embedding of errors.go ===== -/

/-- Unary-length encoding of one string: `n` copies of `'1'`, a `':'`, then
the `n` content characters.  Together with `decChars` this is the executable
stand-in for the external `encoding/json` collaborator: the repository relies
only on the codec being injective with a matching decoder that rejects
malformed input, which this length-prefixed form provides. -/
def encChars (s : List Char) : List Char :=
  List.replicate s.length '1' ++ ':' :: s

/-- Unary length read off the front of an `encChars` encoding. -/
def decCharsLen (cs : List Char) : Nat :=
  (cs.takeWhile fun c => c = '1').length

/-- Decoder matching `encChars`; returns the decoded content and the
unconsumed remainder, or `none` on malformed input. -/
def decChars (cs : List Char) : Option (List Char × List Char) :=
  match cs.drop (decCharsLen cs) with
  | ':' :: r =>
    if decCharsLen cs ≤ r.length then
      some (r.take (decCharsLen cs), r.drop (decCharsLen cs))
    else none
  | _ => none

/-- The key-value payload of `encPairs`. -/
def encPairsBody : StrMap → List Char
  | [] => []
  | kv :: t => encChars kv.1.data ++ (encChars kv.2.data ++ encPairsBody t)

/-- Encoding of the parameter map of a structured error: a unary pair count,
an `'n'` terminator, then each key and value in `encChars` form. -/
def encPairs (ps : StrMap) : List Char :=
  List.replicate ps.length 'p' ++ 'n' :: encPairsBody ps

/-- Decode exactly `n` key-value pairs. -/
def decPairsN : Nat → List Char → Option (StrMap × List Char)
  | 0, cs => some ([], cs)
  | n + 1, cs =>
    match decChars cs with
    | none => none
    | some (k, r1) =>
      match decChars r1 with
      | none => none
      | some (v, r2) =>
        match decPairsN n r2 with
        | none => none
        | some (t, r3) => some ((String.mk k, String.mk v) :: t, r3)

/-- Unary pair count read off the front of an `encPairs` encoding. -/
def decPairsLen (cs : List Char) : Nat :=
  (cs.takeWhile fun c => c = 'p').length

/-- Decoder matching `encPairs`. -/
def decPairs (cs : List Char) : Option (StrMap × List Char) :=
  match cs.drop (decPairsLen cs) with
  | 'n' :: rest => decPairsN (decPairsLen cs) rest
  | _ => none

/-- `json.Marshal` of a `terrors.Error`, modelled by the injective codec
above over its code, message and parameters. -/
def encTerrorData (code message : String) (ps : StrMap) : String :=
  String.mk (encChars code.data ++ (encChars message.data ++ encPairs ps))

/-- `json.Unmarshal` into a `terrors.Error`: recover the three fields and
reject any malformed or trailing input. -/
def decTerrorData (s : String) : Option (String × String × StrMap) :=
  match decChars s.data with
  | none => none
  | some (c, r1) =>
    match decChars r1 with
    | none => none
    | some (m, r2) =>
      match decPairs r2 with
      | some (ps, []) => some (String.mk c, String.mk m, ps)
      | _ => none

/-- The source's `WireErrorType` values. -/
def WireErrorTypeTerror : String := "terror"

/-- See `WireErrorTypeTerror`. -/
def WireErrorTypeSimple : String := "simple"

/-- The source's `WireError`: a kind tag and a string payload. -/
structure WireError where
  Typ : String
  Data : String
deriving DecidableEq

/-- The source's `newSimpleWireError`: kind `simple`, payload the error's
display string (`fmt.Sprintf("%v", err)`). -/
def newSimpleWireError (e : GoErr) : WireError :=
  { Typ := WireErrorTypeSimple, Data := errString e }

/-- The source's `newWireError`: a `terrors.Error` is marshalled under kind
`terror` (marshal failure, impossible in the model, would propagate);
anything else falls back to `newSimpleWireError`. -/
def newWireError (e : GoErr) : Except String WireError :=
  match e with
  | GoErr.terror code message ps =>
    Except.ok { Typ := WireErrorTypeTerror, Data := encTerrorData code message ps }
  | _ => Except.ok (newSimpleWireError e)

/-- The source's `WireError.Decode`: a `simple` payload yields a generic
error carrying exactly the payload string; a `terror` payload is
unmarshalled (failure is reported); an unknown kind is an error. -/
def WireError.Decode (w : WireError) : Except String GoErr :=
  if w.Typ = WireErrorTypeSimple then Except.ok (GoErr.simple w.Data)
  else if w.Typ = WireErrorTypeTerror then
    match decTerrorData w.Data with
    | some (c, m, ps) => Except.ok (GoErr.terror c m ps)
    | none => Except.error "cannot unmarshal to terror"
  else Except.error "unknown wire error type"

end Slog

/- ======================= Theorems ======================= -/

namespace Slog

/- ----- Lookup and merge lemmas ----- -/

theorem mget_append (a b : StrMap) (k : String) :
    mget (a ++ b) k = ovr (mget a k) (mget b k) := by
  induction a with
  | nil =>
    cases h : mget b k <;> simp [mget, ovr, h]
  | cons kv t ih =>
    show mget (kv :: (t ++ b)) k = _
    simp only [mget, ih]
    cases h : mget b k <;> cases h2 : mget t k <;> simp [ovr]

theorem ovr_assoc (a b c : Option String) : ovr (ovr a b) c = ovr a (ovr b c) := by
  cases b <;> cases c <;> simp [ovr]

theorem meq_append_right {b b' : StrMap} (a : StrMap) (h : MEq b b') :
    MEq (a ++ b) (a ++ b') := by
  intro k
  rw [mget_append, mget_append, h k]

theorem mget_single_ne (kv : String × String) (k : String) (h : kv.1 ≠ k) :
    mget [kv] k = none := by
  simp [mget, h]

theorem mget_mergeGoFold_of_some (news : StrMap) :
    ∀ (cur : StrMap) (k : String) (v : String), mget cur k = some v →
      mget (mergeGoFold cur news) k = some v := by
  induction news with
  | nil => intro cur k v h; exact h
  | cons kv t ih =>
    intro cur k v h
    show mget (List.foldl _ (if (mget cur kv.1).isSome then cur else cur ++ [kv]) t) k = some v
    by_cases hk : (mget cur kv.1).isSome
    · rw [if_pos hk]
      exact ih cur k v h
    · rw [if_neg hk]
      refine ih (cur ++ [kv]) k v ?_
      have hne : kv.1 ≠ k := by
        intro he
        rw [he, h] at hk
        exact hk rfl
      rw [mget_append, mget_single_ne kv k hne]
      simpa [ovr] using h

theorem mget_mergeMetadata_of_some (cur : Option StrMap) (news : StrMap) (k v : String)
    (h : mget (cur.getD []) k = some v) :
    mget ((mergeMetadata cur news).getD []) k = some v := by
  unfold mergeMetadata
  by_cases h0 : news.length = 0
  · rw [if_pos h0]; exact h
  · rw [if_neg h0]
    exact mget_mergeGoFold_of_some news (cur.getD []) k v h

theorem providerFold_preserves (ps : List GoVal) :
    ∀ (md : Option StrMap) (k v : String), mget (md.getD []) k = some v →
      mget ((providerFold ps md).getD []) k = some v := by
  induction ps with
  | nil => intro md k v h; exact h
  | cons p t ih =>
    intro md k v h
    show mget ((List.foldl _ (match p with
      | GoVal.vprov lm => mergeMetadata md lm
      | _ => md) t).getD []) k = some v
    cases p <;> first
      | exact ih md k v h
      | exact ih _ k v (mget_mergeMetadata_of_some md _ k v h)

/- ----- Wire codec round-trip lemmas ----- -/

theorem takeWhile_replicate_append {α : Type} (p : α → Bool) (a b : α) (l : List α) (n : Nat)
    (ha : p a = true) (hb : p b = false) :
    (List.replicate n a ++ b :: l).takeWhile p = List.replicate n a := by
  induction n with
  | zero => simp [List.takeWhile, hb]
  | succ n ih => simp [List.replicate, List.takeWhile, ha, ih]

theorem encChars_append (s t : List Char) :
    encChars s ++ t = List.replicate s.length '1' ++ ':' :: (s ++ t) := by
  simp [encChars]

theorem decCharsLen_enc (s t : List Char) : decCharsLen (encChars s ++ t) = s.length := by
  rw [encChars_append]
  unfold decCharsLen
  rw [takeWhile_replicate_append (fun c => decide (c = '1')) '1' ':' (s ++ t) s.length
    (by decide) (by decide)]
  exact List.length_replicate _ _

theorem drop_encChars (s t : List Char) :
    (encChars s ++ t).drop s.length = ':' :: (s ++ t) := by
  rw [encChars_append]
  exact List.drop_left' (List.length_replicate _ _)

theorem decChars_encChars (s t : List Char) : decChars (encChars s ++ t) = some (s, t) := by
  unfold decChars
  rw [decCharsLen_enc s t, drop_encChars s t]
  show (if s.length ≤ (s ++ t).length then
      some (List.take s.length (s ++ t), List.drop s.length (s ++ t))
    else none) = some (s, t)
  rw [if_pos (by simp), List.take_left, List.drop_left]

theorem decPairsN_encPairsBody (ps : StrMap) :
    ∀ t : List Char, decPairsN ps.length (encPairsBody ps ++ t) = some (ps, t) := by
  induction ps with
  | nil => intro t; simp [encPairsBody, decPairsN]
  | cons kv tl ih =>
    intro t
    show decPairsN (tl.length + 1) ((encChars kv.1.data ++ (encChars kv.2.data ++ encPairsBody tl)) ++ t)
      = some (kv :: tl, t)
    rw [List.append_assoc, List.append_assoc]
    simp only [decPairsN, decChars_encChars, ih]

theorem encPairs_append (ps : StrMap) (t : List Char) :
    encPairs ps ++ t = List.replicate ps.length 'p' ++ 'n' :: (encPairsBody ps ++ t) := by
  simp [encPairs]

theorem decPairsLen_enc (ps : StrMap) (t : List Char) :
    decPairsLen (encPairs ps ++ t) = ps.length := by
  rw [encPairs_append]
  unfold decPairsLen
  rw [takeWhile_replicate_append (fun c => decide (c = 'p')) 'p' 'n' (encPairsBody ps ++ t)
    ps.length (by decide) (by decide)]
  exact List.length_replicate _ _

theorem decPairs_encPairs (ps : StrMap) (t : List Char) :
    decPairs (encPairs ps ++ t) = some (ps, t) := by
  unfold decPairs
  rw [decPairsLen_enc ps t]
  rw [show (encPairs ps ++ t).drop ps.length = 'n' :: (encPairsBody ps ++ t) from by
    rw [encPairs_append]
    exact List.drop_left' (List.length_replicate _ _)]
  exact decPairsN_encPairsBody ps t

theorem decTerrorData_encTerrorData (code message : String) (ps : StrMap) :
    decTerrorData (encTerrorData code message ps) = some (code, message, ps) := by
  unfold decTerrorData encTerrorData
  simp only [show (String.mk (encChars code.data ++ (encChars message.data ++ encPairs ps))).data
      = encChars code.data ++ (encChars message.data ++ encPairs ps) from rfl]
  simp only [decChars_encChars]
  rw [show encPairs ps = encPairs ps ++ [] from (List.append_nil _).symm]
  simp only [decPairs_encPairs]

/-- C9: encoding a structured error as a WireError of kind `terror` and then
decoding reproduces a structured error with the same code, message and
parameters; encoding a plain error (kind `simple`) and then decoding yields a
generic error whose message equals the original error's display string
exactly. -/
theorem wire_error_roundtrip (code message : String) (ps : StrMap) (s : String) :
    (newWireError (GoErr.terror code message ps)).bind WireError.Decode
        = Except.ok (GoErr.terror code message ps) ∧
    (newWireError (GoErr.terror code message ps)).map WireError.Typ
        = Except.ok WireErrorTypeTerror ∧
    (newWireError (GoErr.simple s)).bind WireError.Decode
        = Except.ok (GoErr.simple (errString (GoErr.simple s))) ∧
    (newWireError (GoErr.simple s)).map WireError.Typ = Except.ok WireErrorTypeSimple := by
  refine ⟨?_, rfl, ?_, rfl⟩
  · show WireError.Decode { Typ := WireErrorTypeTerror, Data := encTerrorData code message ps }
      = Except.ok (GoErr.terror code message ps)
    unfold WireError.Decode
    simp only [show ({ Typ := WireErrorTypeTerror, Data := encTerrorData code message ps }
      : WireError).Typ = WireErrorTypeTerror from rfl]
    rw [if_neg (show ¬ WireErrorTypeTerror = WireErrorTypeSimple from by decide)]
    rw [if_pos trivial]
    simp only [decTerrorData_encTerrorData]
  · show WireError.Decode { Typ := WireErrorTypeSimple, Data := errString (GoErr.simple s) }
      = Except.ok (GoErr.simple (errString (GoErr.simple s)))
    unfold WireError.Decode
    rw [if_pos rfl]

/-- C8: the format-operand counter is a total function returning a
non-negative best-effort count, and it computes the four counts the spec
lists. -/
theorem countFmtOperands_spec :
    countFmtOperands "%%" = 0 ∧ countFmtOperands "%v" = 1 ∧
    countFmtOperands "%d %d %[1]d" = 2 ∧ countFmtOperands "%[3]*.[2]*[1]f" = 3 ∧
    ∀ s : String, 0 ≤ countFmtOperands s :=
  ⟨by decide, by decide, by decide, by decide, fun _ => Nat.zero_le _⟩

/-- Validation of the modelled scanner against every case of the
repository's fmt_test.go. -/
theorem countFmtOperands_matches_tests :
    countFmtOperands "%%s" = 0 ∧ countFmtOperands "%#v" = 1 ∧ countFmtOperands "%T" = 1 ∧
    countFmtOperands "%t" = 1 ∧ countFmtOperands "%c" = 1 ∧ countFmtOperands "%d" = 1 ∧
    countFmtOperands "%o" = 1 ∧ countFmtOperands "%O" = 1 ∧ countFmtOperands "%U" = 1 ∧
    countFmtOperands "%b" = 1 ∧ countFmtOperands "%e" = 1 ∧ countFmtOperands "%E" = 1 ∧
    countFmtOperands "%f" = 1 ∧ countFmtOperands "%F" = 1 ∧ countFmtOperands "%g" = 1 ∧
    countFmtOperands "%G" = 1 ∧ countFmtOperands "%s" = 1 ∧ countFmtOperands "%q" = 1 ∧
    countFmtOperands "%x" = 1 ∧ countFmtOperands "%X" = 1 ∧ countFmtOperands "%p" = 1 ∧
    countFmtOperands "%9f" = 1 ∧ countFmtOperands "%.2f" = 1 ∧ countFmtOperands "%9.2f" = 1 ∧
    countFmtOperands "%9.f" = 1 ∧ countFmtOperands "% d" = 1 ∧ countFmtOperands "%09d" = 1 ∧
    countFmtOperands "%%s %s %s" = 2 ∧ countFmtOperands "%6.2f" = 1 ∧
    countFmtOperands "%d %d %#[1]x %#x" = 2 ∧
    countFmtOperands "%d %d %d %[1]d %d %[3]x %d %d %x" = 6 ∧
    countFmtOperands "%s %% %%s %s" = 2 ∧ countFmtOperands "%s %s" = 2 ∧
    countFmtOperands "%s %s %d" = 3 ∧ countFmtOperands "%[2]d %[1]d" = 2 ∧
    countFmtOperands "%[3]*.[2]*[1]f %[3]*.[2]*[1]f %s" = 3 := by
  repeat refine ⟨by decide, ?_⟩
  decide

/- ----- Event construction ----- -/

theorem eventf_with_trailing (id : String) (now : Nat) (sev : Severity) (ctx : Option Ctx)
    (msg : String) (ps : List GoVal) (w : GoVal)
    (hlen : countFmtOperands msg < ps.length + 1)
    (herr : ¬ ((ps ++ [w]).length = 1 ∧ countFmtOperands msg = 0 ∧
      isErrVal ((ps ++ [w]).headD GoVal.vnil) = true)) :
    Eventf (some id) now sev ctx msg (ps ++ [w]) =
      { context := some (ctx.getD Ctx.background), id := id, timestamp := now, severity := sev,
        message := if 0 < countFmtOperands msg then goSprintf msg ps else msg,
        metadata := providerFold ps (popMeta (some w)),
        rawMetadata := popRaw (some w), labels := none } := by
  have hl : (ps ++ [w]).length = ps.length + 1 := by simp
  have h0 : 0 < (ps ++ [w]).length := by omega
  have hm : countFmtOperands msg < (ps ++ [w]).length := by omega
  simp only [Eventf, if_pos h0, if_neg herr, if_pos hm, List.getLast?_concat,
    List.dropLast_concat]

/-- C2: with exactly one argument that is an error value and a template
consuming no operands, `Eventf` short-circuits: the event's metadata is
exactly the error's display string under the key `error`, the raw metadata
the error value itself, and the message is the template verbatim. -/
theorem eventf_error_shortcircuit (id : String) (now : Nat) (sev : Severity) (ctx : Option Ctx)
    (msg : String) (e : GoErr) (h : countFmtOperands msg = 0) :
    Eventf (some id) now sev ctx msg [GoVal.verr e]
        = createErrorEvent (some (ctx.getD Ctx.background)) sev id now msg e ∧
    (Eventf (some id) now sev ctx msg [GoVal.verr e]).metadata
        = some [("error", errString e)] ∧
    (Eventf (some id) now sev ctx msg [GoVal.verr e]).message = msg ∧
    (Eventf (some id) now sev ctx msg [GoVal.verr e]).rawMetadata
        = some [("error", GoVal.verr e)] := by
  have he : Eventf (some id) now sev ctx msg [GoVal.verr e]
      = createErrorEvent (some (ctx.getD Ctx.background)) sev id now msg e := by
    simp [Eventf, h, isErrVal, errOf]
  exact ⟨he, by rw [he]; rfl, by rw [he]; rfl, by rw [he]; rfl⟩

/-- Witness for C2 at a concrete input. -/
theorem eventf_error_shortcircuit_witness :
    countFmtOperands "msg" = 0 ∧
    (Eventf (some "id") 7 ErrorSeverity none "msg" [GoVal.verr (GoErr.simple "boom")]).metadata
        = some [("error", "boom")] ∧
    (Eventf (some "id") 7 ErrorSeverity none "msg" [GoVal.verr (GoErr.simple "boom")]).message
        = "msg" :=
  ⟨by decide,
   (eventf_error_shortcircuit "id" 7 ErrorSeverity none "msg" (GoErr.simple "boom")
     (by decide)).2.1,
   (eventf_error_shortcircuit "id" 7 ErrorSeverity none "msg" (GoErr.simple "boom")
     (by decide)).2.2.1⟩

/-- C3 counterexample: with template `"hello"` (zero operands) and arguments
`[map, "x"]`, the claim says the argument at position `n = 0` — the map — is
taken as explicit metadata, so the event's metadata would carry
`"k" ↦ "v"`; the code instead inspects the *last* argument (the non-map
string `"x"`) and produces no metadata at all. -/
theorem trailing_metadata_position_counterexample :
    ¬ (metaGet (Eventf (some "id") 0 ErrorSeverity none "hello"
        [GoVal.vstrMap [("k", "v")], GoVal.vstr "x"]) "k" = some "v") := by
  decide

/-- C3 amended: when there are more arguments than the template consumes, the
argument inspected as the metadata candidate is the *last* one, and it is
always removed from the formatting argument list — it becomes explicit
metadata when it is a string-keyed (or raw) mapping and is dropped silently
otherwise (whether it is `nil` or any other non-map value), never surfacing
in the rendered message. -/
theorem eventf_trailing_arg_popped (id : String) (now : Nat) (sev : Severity) (ctx : Option Ctx)
    (msg : String) (ps : List GoVal) (a b : GoVal)
    (hlen : countFmtOperands msg < ps.length + 1)
    (ha : isStrMapVal a = false ∧ isRawMapVal a = false ∧ isErrVal a = false)
    (hb : isStrMapVal b = false ∧ isRawMapVal b = false ∧ isErrVal b = false) :
    Eventf (some id) now sev ctx msg (ps ++ [a]) = Eventf (some id) now sev ctx msg (ps ++ [b]) ∧
    ∀ m : StrMap, (Eventf (some id) now sev ctx msg (ps ++ [GoVal.vstrMap m])).metadata
        = providerFold ps (mergeMetadata none m) := by
  have herr : ∀ w : GoVal, isErrVal w = false →
      ¬ ((ps ++ [w]).length = 1 ∧ countFmtOperands msg = 0 ∧
        isErrVal ((ps ++ [w]).headD GoVal.vnil) = true) := by
    intro w hw hcon
    obtain ⟨h1, _, h3⟩ := hcon
    have hps : ps = [] := by
      have : ps.length = 0 := by
        have := h1
        simp only [List.length_append, List.length_cons, List.length_nil] at this
        omega
      exact List.length_eq_zero.mp this
    subst hps
    simp only [List.nil_append, List.headD] at h3
    rw [hw] at h3
    cases h3
  have hmap : ∀ m : StrMap, isErrVal (GoVal.vstrMap m) = false := fun _ => rfl
  have hpopa : popMeta (some a) = none := by
    cases a <;> simp [popMeta] at ha ⊢ <;> simp [isStrMapVal, isRawMapVal] at ha
  have hrawa : popRaw (some a) = none := by
    cases a <;> simp [popRaw] at ha ⊢ <;> simp [isStrMapVal, isRawMapVal] at ha
  have hpopb : popMeta (some b) = none := by
    cases b <;> simp [popMeta] at hb ⊢ <;> simp [isStrMapVal, isRawMapVal] at hb
  have hrawb : popRaw (some b) = none := by
    cases b <;> simp [popRaw] at hb ⊢ <;> simp [isStrMapVal, isRawMapVal] at hb
  constructor
  · rw [eventf_with_trailing id now sev ctx msg ps a hlen (herr a ha.2.2),
      eventf_with_trailing id now sev ctx msg ps b hlen (herr b hb.2.2),
      hpopa, hrawa, hpopb, hrawb]
  · intro m
    rw [eventf_with_trailing id now sev ctx msg ps (GoVal.vstrMap m) hlen (herr _ (hmap m))]
    rfl

/-- Witness for C3 at concrete inputs: a trailing `nil` and a trailing
integer produce identical events, and a trailing string map becomes the
explicit metadata. -/
theorem eventf_trailing_arg_popped_witness :
    Eventf (some "i") 0 InfoSeverity none "z: %s" [GoVal.vstr "a", GoVal.vnil]
        = Eventf (some "i") 0 InfoSeverity none "z: %s" [GoVal.vstr "a", GoVal.vint 7] ∧
    (Eventf (some "i") 0 InfoSeverity none "z: %s"
        [GoVal.vstr "a", GoVal.vstrMap [("m", "1")]]).metadata
        = providerFold [GoVal.vstr "a"] (mergeMetadata none [("m", "1")]) :=
  ⟨(eventf_trailing_arg_popped "i" 0 InfoSeverity none "z: %s" [GoVal.vstr "a"]
      GoVal.vnil (GoVal.vint 7) (by decide) ⟨rfl, rfl, rfl⟩ ⟨rfl, rfl, rfl⟩).1,
   (eventf_trailing_arg_popped "i" 0 InfoSeverity none "z: %s" [GoVal.vstr "a"]
      GoVal.vnil (GoVal.vint 7) (by decide) ⟨rfl, rfl, rfl⟩ ⟨rfl, rfl, rfl⟩).2 [("m", "1")]⟩

/-- C5 counterexample: when unique-id generation fails, the supplied severity
and message are *not* preserved — the zero `Event` comes back instead. -/
theorem eventf_id_failure_counterexample :
    ¬ ((Eventf none 0 InfoSeverity none "x" []).severity = InfoSeverity ∧
       (Eventf none 0 InfoSeverity none "x" []).message = "x") := by
  decide

/-- C5 amended: on unique-id generation failure `Eventf` does not propagate
the failure — it returns normally — but the event returned is the zero
`Event` (empty id, zero severity, empty message), not one preserving the
supplied severity and message. -/
theorem eventf_id_failure_returns_zero (now : Nat) (sev : Severity) (ctx : Option Ctx)
    (msg : String) (ps : List GoVal) :
    Eventf none now sev ctx msg ps = zeroEvent := rfl

/-- C7 counterexample: with template `"x: %v"` and the single argument a
metadata-provider value, that argument is format-consumed (it is rendered
into the message), yet its entries appear in the event's metadata —
refuting the invariant that format-consumed positional arguments never
contribute metadata. -/
theorem format_consumed_provider_counterexample :
    metaGet (Eventf (some "id") 0 InfoSeverity none "x: %v" [GoVal.vprov [("p", "q")]]) "p"
        = some "q" ∧
    (Eventf (some "id") 0 InfoSeverity none "x: %v" [GoVal.vprov [("p", "q")]]).message
        = "x: map[p:q]" := by
  constructor
  · decide
  · rfl

/-- C7 amended: metadata-provider arguments are merged at lower precedence
than the explicit metadata map — a key already present is never overwritten
by the provider loop — but *every* argument left after the trailing-metadata
pop contributes, including format-consumed ones: when all arguments are
format-consumed (no pop happens), the event's metadata is exactly the
provider-loop fold over all of them. -/
theorem provider_metadata_precedence :
    (∀ (ps : List GoVal) (md : Option StrMap) (k v : String),
        mget (md.getD []) k = some v →
        mget ((providerFold ps md).getD []) k = some v) ∧
    (∀ (id : String) (now : Nat) (sev : Severity) (ctx : Option Ctx) (msg : String)
        (ps : List GoVal), ps.length ≤ countFmtOperands msg →
        (Eventf (some id) now sev ctx msg ps).metadata = providerFold ps none) := by
  constructor
  · intro ps md k v h
    exact providerFold_preserves ps md k v h
  · intro id now sev ctx msg ps hlen
    cases ps with
    | nil => rfl
    | cons p t =>
      have h0 : 0 < (p :: t).length := by simp
      have hne : ¬ ((p :: t).length = 1 ∧ countFmtOperands msg = 0 ∧
          isErrVal ((p :: t).headD GoVal.vnil) = true) := by
        intro hcon
        have := hcon.2.1
        simp only [List.length_cons] at hlen
        omega
      have hnl : ¬ (countFmtOperands msg < (p :: t).length) := by
        simp only [List.length_cons] at hlen ⊢
        omega
      simp only [Eventf, if_pos h0, if_neg hne, if_neg hnl]
      rfl

/-- Witness for C7 at concrete inputs: the provider cannot overwrite an
explicit key, and a format-consumed provider's map is the whole metadata. -/
theorem provider_metadata_precedence_witness :
    mget ((providerFold [GoVal.vprov [("a", "1")]] (some [("a", "0")])).getD []) "a"
        = some "0" ∧
    (Eventf (some "i") 0 InfoSeverity none "x: %v" [GoVal.vprov [("p", "q")]]).metadata
        = providerFold [GoVal.vprov [("p", "q")]] none :=
  ⟨provider_metadata_precedence.1 [GoVal.vprov [("a", "1")]] (some [("a", "0")]) "a" "0"
      (by decide),
   provider_metadata_precedence.2 "i" 0 InfoSeverity none "x: %v" [GoVal.vprov [("p", "q")]]
      (by decide)⟩

/-- C10 failing input: a format-consumed metadata-provider argument updates
`Metadata` but not `RawMetadata`, so the two fields do not contain the same
keys (the struct's own doc comment promises they always do), and they are
not `nil` together. -/
theorem metadata_raw_desync :
    (Eventf (some "id") 0 CriticalSeverity none "foo: %v"
        [GoVal.vprov [("foo", "bar")]]).metadata = some [("foo", "bar")] ∧
    (Eventf (some "id") 0 CriticalSeverity none "foo: %v"
        [GoVal.vprov [("foo", "bar")]]).rawMetadata = none :=
  ⟨by decide, rfl⟩

/-- C1 failing input: a context carrying the ambient parameter `"k" ↦ "v"`
(as `Params` reports) yields an event with *no* metadata — `Eventf` never
merges `Params(ctx)`, although `WithParams`'s own documentation promises
that events generated with the returned context include the parameters. -/
theorem eventf_ignores_context_params :
    mget (Params (WithParam emptySt Ctx.background "k" "v").1
        (some (WithParam emptySt Ctx.background "k" "v").2)).2 "k" = some "v" ∧
    (Eventf (some "id") 0 InfoSeverity (some (WithParam emptySt Ctx.background "k" "v").2)
        "hello" []).metadata = none := by
  constructor
  · decide
  · rfl

/- ----- ParamChain correctness ----- -/

theorem get?_some_lt {α : Type} {l : List α} {n : Nat} {a : α} (h : l.get? n = some a) :
    n < l.length := by
  by_contra hn
  rw [List.get?_eq_none.mpr (Nat.le_of_not_lt hn)] at h
  cases h

theorem emptySt_ok : StOk emptySt := by
  intro r nd h
  simp [getNode, emptySt] at h

theorem headLt_of_ctxOk {σ : St} {c : Ctx} (hc : CtxOk σ c) : headLt c σ.nodes.length := by
  cases hc with
  | background => trivial
  | node r p nd hget hpar hchild hlt hp => exact get?_some_lt hget

theorem ctxOk_allocMap (σ : St) (m : StrMap) {c : Ctx} (hc : CtxOk σ c) :
    CtxOk (allocMap σ m).1 c := by
  induction hc with
  | background => exact CtxOk.background
  | node r p nd hget hpar hchild hlt hp ih =>
    refine CtxOk.node r p nd hget hpar ?_ hlt ih
    show nd.ChildParams < (σ.maps ++ [m]).length
    rw [List.length_append]
    omega

theorem getMap_allocMap_lt (σ : St) (m : StrMap) (r : Nat) (h : r < σ.maps.length) :
    getMap (allocMap σ m).1 r = getMap σ r := by
  unfold getMap allocMap
  rw [List.get?_append h]

theorem getMap_allocMap_new (σ : St) (m : StrMap) :
    getMap (allocMap σ m).1 (allocMap σ m).2 = m := by
  show (((σ.maps ++ [m]).get? σ.maps.length).getD []) = m
  rw [List.get?_concat_length]
  rfl

theorem ctxSpec_allocMap (σ : St) (m : StrMap) {c : Ctx} (hc : CtxOk σ c) :
    ctxSpec (allocMap σ m).1 c = ctxSpec σ c := by
  induction hc with
  | background => rfl
  | node r p nd hget hpar hchild hlt hp ih =>
    show ctxSpec (allocMap σ m).1 p ++ specChild (allocMap σ m).1 r = ctxSpec σ p ++ specChild σ r
    rw [ih]
    congr 1
    show specChild (allocMap σ m).1 r = specChild σ r
    unfold specChild
    rw [show getNode (allocMap σ m).1 r = getNode σ r from rfl, hget]
    exact getMap_allocMap_lt σ m nd.ChildParams hchild

theorem stOk_allocMap (σ : St) (m : StrMap) (hσ : StOk σ) : StOk (allocMap σ m).1 := by
  intro r nd hget
  obtain ⟨hok, hc⟩ := hσ r nd hget
  refine ⟨ctxOk_allocMap σ m hok, fun c0 h0 k => ?_⟩
  rw [ctxSpec_allocMap σ m hok]
  exact hc c0 h0 k

theorem getNode_withParams_lt (σ : St) (parent : Ctx) (mr r : Nat) (h : r < σ.nodes.length) :
    getNode (WithParams σ parent mr).1 r = getNode σ r := by
  unfold getNode WithParams
  exact List.get?_append h

theorem getNode_withParams_new (σ : St) (parent : Ctx) (mr : Nat) :
    getNode (WithParams σ parent mr).1 σ.nodes.length
      = some { Parent := parent, ChildParams := mr, mergedParams := none } := by
  unfold getNode WithParams
  exact List.get?_concat_length _ _

theorem ctxOk_withParams (σ : St) (parent : Ctx) (mr : Nat) {c : Ctx} (hc : CtxOk σ c) :
    CtxOk (WithParams σ parent mr).1 c := by
  induction hc with
  | background => exact CtxOk.background
  | node r p nd hget hpar hchild hlt hp ih =>
    exact CtxOk.node r p nd
      ((getNode_withParams_lt σ parent mr r (get?_some_lt hget)).trans hget) hpar hchild hlt ih

theorem ctxSpec_withParams (σ : St) (parent : Ctx) (mr : Nat) {c : Ctx} (hc : CtxOk σ c) :
    ctxSpec (WithParams σ parent mr).1 c = ctxSpec σ c := by
  induction hc with
  | background => rfl
  | node r p nd hget hpar hchild hlt hp ih =>
    show ctxSpec _ p ++ specChild _ r = ctxSpec σ p ++ specChild σ r
    rw [ih]
    congr 1
    unfold specChild
    rw [getNode_withParams_lt σ parent mr r (get?_some_lt hget), hget]
    rfl

theorem ctxOk_withParams_new (σ : St) (parent : Ctx) (mr : Nat)
    (hp : CtxOk σ parent) (hm : mr < σ.maps.length) :
    CtxOk (WithParams σ parent mr).1 (WithParams σ parent mr).2 :=
  CtxOk.node σ.nodes.length parent { Parent := parent, ChildParams := mr, mergedParams := none }
    (getNode_withParams_new σ parent mr) rfl hm (headLt_of_ctxOk hp)
    (ctxOk_withParams σ parent mr hp)

theorem ctxSpec_withParams_new (σ : St) (parent : Ctx) (mr : Nat) (hp : CtxOk σ parent) :
    ctxSpec (WithParams σ parent mr).1 (WithParams σ parent mr).2
      = ctxSpec σ parent ++ getMap σ mr := by
  show ctxSpec _ parent ++ specChild _ σ.nodes.length = _
  rw [ctxSpec_withParams σ parent mr hp]
  congr 1
  unfold specChild
  rw [getNode_withParams_new σ parent mr]
  rfl

theorem stOk_withParams (σ : St) (parent : Ctx) (mr : Nat)
    (hσ : StOk σ) (hp : CtxOk σ parent) (hm : mr < σ.maps.length) :
    StOk (WithParams σ parent mr).1 := by
  intro r nd hget
  by_cases hr : r < σ.nodes.length
  · rw [getNode_withParams_lt σ parent mr r hr] at hget
    obtain ⟨hok, hc⟩ := hσ r nd hget
    refine ⟨ctxOk_withParams σ parent mr hok, fun c0 h0 k => ?_⟩
    rw [ctxSpec_withParams σ parent mr hok]
    exact hc c0 h0 k
  · have hlen : (WithParams σ parent mr).1.nodes.length = σ.nodes.length + 1 := by
      simp [WithParams]
    have hlt := get?_some_lt hget
    have hreq : r = σ.nodes.length := by omega
    subst hreq
    rw [getNode_withParams_new σ parent mr] at hget
    cases hget
    exact ⟨ctxOk_withParams_new σ parent mr hp hm, fun c0 h0 => by cases h0⟩

theorem collectAllParams_meq (σ : St) (hσ : StOk σ) :
    ∀ (fuel r : Nat) (res : StrMap) (p : Ctx), CtxOk σ (Ctx.withNode r p) → r < fuel →
      MEq (collectAllParams σ fuel r res) (res ++ ctxSpec σ (Ctx.withNode r p)) := by
  intro fuel
  induction fuel with
  | zero =>
    intro r res p hc hr
    exact absurd hr (Nat.not_lt_zero r)
  | succ fuel ih =>
    intro r res p hc hr
    cases hc with
    | node _ _ nd hget hpar hchild hlt hp =>
      simp only [collectAllParams, hget, hpar]
      cases hcache : nd.mergedParams with
      | some cached =>
        intro k
        rw [mget_append, mget_append]
        have hmc := ((hσ r nd hget).2 cached hcache k)
        rw [hmc, hpar]
      | none =>
        cases p with
        | background =>
          simp only [paramNodeFromContext]
          intro k
          show mget (res ++ getMap σ nd.ChildParams) k
            = mget (res ++ (ctxSpec σ Ctx.background ++ specChild σ r)) k
          unfold specChild
          rw [hget]
          rfl
        | withNode pr pp =>
          simp only [paramNodeFromContext]
          have hihp : MEq (collectAllParams σ fuel pr res)
              (res ++ ctxSpec σ (Ctx.withNode pr pp)) :=
            ih pr res pp hp (by
              have : pr < r := hlt
              omega)
          intro k
          rw [mget_append]
          rw [hihp k]
          rw [mget_append]
          show ovr (ovr (mget res k) (mget (ctxSpec σ (Ctx.withNode pr pp)) k))
              (mget (getMap σ nd.ChildParams) k)
            = mget (res ++ ctxSpec σ (Ctx.withNode r (Ctx.withNode pr pp))) k
          rw [ovr_assoc]
          rw [mget_append]
          congr 1
          show ovr (mget (ctxSpec σ (Ctx.withNode pr pp)) k) (mget (getMap σ nd.ChildParams) k)
            = mget (ctxSpec σ (Ctx.withNode pr pp) ++ specChild σ r) k
          rw [mget_append]
          congr 1
          unfold specChild
          rw [hget]

theorem nodeParams_meq (σ : St) (r : Nat) (p : Ctx) (hσ : StOk σ)
    (hc : CtxOk σ (Ctx.withNode r p)) :
    MEq (nodeParams σ r).2 (ctxSpec σ (Ctx.withNode r p)) := by
  cases hc with
  | node _ _ nd hget hpar hchild hlt hp =>
    cases hcache : nd.mergedParams with
    | some cached =>
      have heq : (nodeParams σ r).2 = cached := by
        simp only [nodeParams, hget, hcache]
      rw [heq]
      intro k
      have := (hσ r nd hget).2 cached hcache k
      rw [hpar] at this
      exact this
    | none =>
      have heq : (nodeParams σ r).2 = collectAllParams σ (r + 1) r [] := by
        simp only [nodeParams, hget, hcache]
      rw [heq]
      intro k
      exact collectAllParams_meq σ hσ (r + 1) r [] p
        (CtxOk.node r p nd hget hpar hchild hlt hp) (Nat.lt_succ_self r) k

theorem setCache_getNode_self (σ : St) (r : Nat) (nd nd' : NodeData)
    (hget : getNode σ r = some nd) :
    getNode { σ with nodes := σ.nodes.set r nd' } r = some nd' := by
  show (σ.nodes.set r nd').get? r = some nd'
  rw [List.get?_set_eq]
  rw [show σ.nodes.get? r = some nd from hget]
  rfl

theorem setCache_getNode_other (σ : St) (r : Nat) (nd' : NodeData) (x : Nat) (hx : x ≠ r) :
    getNode { σ with nodes := σ.nodes.set r nd' } x = getNode σ x := by
  show (σ.nodes.set r nd').get? x = σ.nodes.get? x
  exact List.get?_set_ne nd' σ.nodes (fun h => hx h.symm)

theorem setCache_specChild (σ : St) (r : Nat) (nd : NodeData) (res : StrMap)
    (hget : getNode σ r = some nd) (x : Nat) :
    specChild { σ with nodes := σ.nodes.set r { nd with mergedParams := some res } } x
      = specChild σ x := by
  by_cases hx : x = r
  · subst hx
    unfold specChild
    rw [setCache_getNode_self σ x nd _ hget, hget]
    rfl
  · unfold specChild
    rw [setCache_getNode_other σ r _ x hx]
    rfl

theorem setCache_ctxSpec (σ : St) (r : Nat) (nd : NodeData) (res : StrMap)
    (hget : getNode σ r = some nd) (c : Ctx) :
    ctxSpec { σ with nodes := σ.nodes.set r { nd with mergedParams := some res } } c
      = ctxSpec σ c := by
  induction c with
  | background => rfl
  | withNode x q ihq =>
    show ctxSpec _ q ++ specChild _ x = ctxSpec σ q ++ specChild σ x
    rw [ihq, setCache_specChild σ r nd res hget x]

theorem setCache_ctxOk (σ : St) (r : Nat) (nd : NodeData) (res : StrMap)
    (hget : getNode σ r = some nd) {c : Ctx} (hc : CtxOk σ c) :
    CtxOk { σ with nodes := σ.nodes.set r { nd with mergedParams := some res } } c := by
  induction hc with
  | background => exact CtxOk.background
  | node x p nd0 hget0 hpar0 hchild0 hlt0 hp0 ih =>
    by_cases hx : x = r
    · subst hx
      have hnd : nd0 = nd := by
        rw [hget0] at hget
        cases hget
        rfl
      subst hnd
      exact CtxOk.node x p { nd0 with mergedParams := some res }
        (setCache_getNode_self σ x nd0 _ hget0) hpar0 hchild0 hlt0 ih
    · exact CtxOk.node x p nd0
        ((setCache_getNode_other σ r _ x hx).trans hget0) hpar0 hchild0 hlt0 ih

theorem setCache_stOk (σ : St) (r : Nat) (nd : NodeData) (res : StrMap)
    (hget : getNode σ r = some nd) (hσ : StOk σ)
    (hres : MEq res (ctxSpec σ (Ctx.withNode r nd.Parent))) :
    StOk { σ with nodes := σ.nodes.set r { nd with mergedParams := some res } } := by
  intro x ndx hx
  by_cases hxr : x = r
  · subst hxr
    have hndx : ndx = { nd with mergedParams := some res } := by
      rw [setCache_getNode_self σ x nd _ hget] at hx
      cases hx
      rfl
    subst hndx
    refine ⟨?_, ?_⟩
    · exact setCache_ctxOk σ x nd res hget (hσ x nd hget).1
    · intro c0 h0 k
      have hc0 : res = c0 := by
        cases h0
        rfl
      subst hc0
      rw [setCache_ctxSpec σ x nd res hget]
      exact hres k
  · rw [setCache_getNode_other σ r _ x hxr] at hx
    obtain ⟨hok, hc⟩ := hσ x ndx hx
    refine ⟨setCache_ctxOk σ r nd res hget hok, fun c0 h0 k => ?_⟩
    rw [setCache_ctxSpec σ r nd res hget]
    exact hc c0 h0 k

theorem nodeParams_preserve (σ : St) (r : Nat) (hσ : StOk σ) :
    StOk (nodeParams σ r).1 ∧ (∀ c, ctxSpec (nodeParams σ r).1 c = ctxSpec σ c) ∧
    (∀ c, CtxOk σ c → CtxOk (nodeParams σ r).1 c) ∧ (nodeParams σ r).1.maps = σ.maps := by
  cases hget : getNode σ r with
  | none =>
    have heq : nodeParams σ r = (σ, []) := by
      simp only [nodeParams, hget]
    rw [heq]
    exact ⟨hσ, fun c => rfl, fun c h => h, rfl⟩
  | some nd =>
    cases hcache : nd.mergedParams with
    | some cached =>
      have heq : nodeParams σ r = (σ, cached) := by
        simp only [nodeParams, hget, hcache]
      rw [heq]
      exact ⟨hσ, fun c => rfl, fun c h => h, rfl⟩
    | none =>
      have heq : nodeParams σ r =
          ({ σ with
              nodes := σ.nodes.set r
                ({ nd with mergedParams := some (collectAllParams σ (r + 1) r []) }) },
           collectAllParams σ (r + 1) r []) := by
        simp only [nodeParams, hget, hcache]
      have hok := (hσ r nd hget).1
      have hres : MEq (collectAllParams σ (r + 1) r [])
          (ctxSpec σ (Ctx.withNode r nd.Parent)) := by
        intro k
        exact collectAllParams_meq σ hσ (r + 1) r [] nd.Parent hok (Nat.lt_succ_self r) k
      rw [heq]
      exact ⟨setCache_stOk σ r nd _ hget hσ hres,
        fun c => setCache_ctxSpec σ r nd _ hget c,
        fun c hc => setCache_ctxOk σ r nd _ hget hc, rfl⟩

theorem Params_preserve (σ : St) (x : Ctx) (hσ : StOk σ) :
    StOk (Params σ (some x)).1 ∧ (∀ c, ctxSpec (Params σ (some x)).1 c = ctxSpec σ c) ∧
    (∀ c, CtxOk σ c → CtxOk (Params σ (some x)).1 c) ∧ (Params σ (some x)).1.maps = σ.maps := by
  cases x with
  | background => exact ⟨hσ, fun c => rfl, fun c h => h, rfl⟩
  | withNode r p => exact nodeParams_preserve σ r hσ

theorem runResolves_preserve (rs : List Ctx) :
    ∀ σ : St, StOk σ →
      StOk (runResolves σ rs) ∧ (∀ c, ctxSpec (runResolves σ rs) c = ctxSpec σ c) ∧
      (∀ c, CtxOk σ c → CtxOk (runResolves σ rs) c) ∧ (runResolves σ rs).maps = σ.maps := by
  induction rs with
  | nil => exact fun σ hσ => ⟨hσ, fun c => rfl, fun c h => h, rfl⟩
  | cons x t ih =>
    intro σ hσ
    obtain ⟨h1, h2, h3, h4⟩ := Params_preserve σ x hσ
    obtain ⟨g1, g2, g3, g4⟩ := ih (Params σ (some x)).1 h1
    exact ⟨g1, fun c => (g2 c).trans (h2 c), fun c hc => g3 c (h3 c hc), g4.trans h4⟩

theorem Params_meq (σ : St) (c : Ctx) (hσ : StOk σ) (hc : CtxOk σ c) :
    MEq (Params σ (some c)).2 (ctxSpec σ c) := by
  cases c with
  | background => intro k; rfl
  | withNode r p => exact nodeParams_meq σ r p hσ hc

theorem bindMap_ok (σ : St) (c : Ctx) (m : StrMap) (hσ : StOk σ) (hc : CtxOk σ c) :
    StOk (bindMap σ c m).1 ∧ CtxOk (bindMap σ c m).1 (bindMap σ c m).2 ∧
    ctxSpec (bindMap σ c m).1 (bindMap σ c m).2 = ctxSpec σ c ++ m ∧
    (∀ c2, CtxOk σ c2 → CtxOk (bindMap σ c m).1 c2) ∧
    (∀ c2, CtxOk σ c2 → ctxSpec (bindMap σ c m).1 c2 = ctxSpec σ c2) := by
  have hm : (allocMap σ m).2 < (allocMap σ m).1.maps.length := by
    show σ.maps.length < (σ.maps ++ [m]).length
    simp
  have hσa := stOk_allocMap σ m hσ
  have hca := ctxOk_allocMap σ m hc
  refine ⟨stOk_withParams _ c _ hσa hca hm,
    ctxOk_withParams_new _ c _ hca hm, ?_, ?_, ?_⟩
  · show ctxSpec (WithParams (allocMap σ m).1 c (allocMap σ m).2).1
        (WithParams (allocMap σ m).1 c (allocMap σ m).2).2 = ctxSpec σ c ++ m
    rw [ctxSpec_withParams_new (allocMap σ m).1 c (allocMap σ m).2 hca]
    rw [ctxSpec_allocMap σ m hc]
    rw [getMap_allocMap_new σ m]
  · intro c2 hc2
    exact ctxOk_withParams _ c _ (ctxOk_allocMap σ m hc2)
  · intro c2 hc2
    show ctxSpec (WithParams (allocMap σ m).1 c (allocMap σ m).2).1 c2 = ctxSpec σ c2
    rw [ctxSpec_withParams (allocMap σ m).1 c (allocMap σ m).2 (ctxOk_allocMap σ m hc2)]
    exact ctxSpec_allocMap σ m hc2

/-- C6 counterpart of the spec's §8 property, with explicit intermediate
resolve sequences: `Params` after `bind(bind(c, m1), m2)` looks up, at every
key, the parameters visible in `c` overlaid by `m1` overlaid by `m2`
(later/nearer binding winning), and the result is unchanged by *any*
sequence of `Params` calls interleaved after either bind — the lazy
`mergedParams` cache is semantically transparent. -/
theorem params_bind_bind_resolve (σ : St) (c : Ctx) (m1 m2 : StrMap) (rs1 rs2 : List Ctx)
    (hσ : StOk σ) (hc : CtxOk σ c) :
    ∀ k, mget (Params
        (runResolves
          (bindMap (runResolves (bindMap σ c m1).1 rs1) (bindMap σ c m1).2 m2).1 rs2)
        (some (bindMap (runResolves (bindMap σ c m1).1 rs1) (bindMap σ c m1).2 m2).2)).2 k
      = mget (ctxSpec σ c ++ (m1 ++ m2)) k := by
  obtain ⟨b1ok, b1cok, b1spec, _, _⟩ := bindMap_ok σ c m1 hσ hc
  obtain ⟨r1ok, r1spec, r1cok, _⟩ := runResolves_preserve rs1 (bindMap σ c m1).1 b1ok
  obtain ⟨b2ok, b2cok, b2spec, _, _⟩ :=
    bindMap_ok (runResolves (bindMap σ c m1).1 rs1) (bindMap σ c m1).2 m2 r1ok
      (r1cok _ b1cok)
  obtain ⟨r2ok, r2spec, r2cok, _⟩ := runResolves_preserve rs2
    (bindMap (runResolves (bindMap σ c m1).1 rs1) (bindMap σ c m1).2 m2).1 b2ok
  intro k
  rw [Params_meq _ _ r2ok (r2cok _ b2cok) k]
  rw [r2spec, b2spec, r1spec, b1spec]
  rw [List.append_assoc]

/-- Witness for C6 at concrete inputs, exercising the cache (the inner bound
context is resolved once before the outer bind, populating its
`mergedParams`, and the outer context is resolved twice). -/
theorem params_bind_bind_resolve_witness :
    mget (Params
        (runResolves
          (bindMap (runResolves (bindMap emptySt Ctx.background [("k", "x"), ("a", "1")]).1
              [Ctx.withNode 0 Ctx.background])
            (bindMap emptySt Ctx.background [("k", "x"), ("a", "1")]).2 [("k", "y")]).1
          [Ctx.withNode 1 (Ctx.withNode 0 Ctx.background)])
        (some (bindMap (runResolves (bindMap emptySt Ctx.background [("k", "x"), ("a", "1")]).1
              [Ctx.withNode 0 Ctx.background])
            (bindMap emptySt Ctx.background [("k", "x"), ("a", "1")]).2 [("k", "y")]).2)).2 "k"
      = some "y" ∧
    mget (Params
        (runResolves
          (bindMap (runResolves (bindMap emptySt Ctx.background [("k", "x"), ("a", "1")]).1
              [Ctx.withNode 0 Ctx.background])
            (bindMap emptySt Ctx.background [("k", "x"), ("a", "1")]).2 [("k", "y")]).1
          [Ctx.withNode 1 (Ctx.withNode 0 Ctx.background)])
        (some (bindMap (runResolves (bindMap emptySt Ctx.background [("k", "x"), ("a", "1")]).1
              [Ctx.withNode 0 Ctx.background])
            (bindMap emptySt Ctx.background [("k", "x"), ("a", "1")]).2 [("k", "y")]).2)).2 "a"
      = some "1" :=
  ⟨(params_bind_bind_resolve emptySt Ctx.background [("k", "x"), ("a", "1")] [("k", "y")]
      [Ctx.withNode 0 Ctx.background] [Ctx.withNode 1 (Ctx.withNode 0 Ctx.background)]
      emptySt_ok CtxOk.background "k").trans (by decide),
   (params_bind_bind_resolve emptySt Ctx.background [("k", "x"), ("a", "1")] [("k", "y")]
      [Ctx.withNode 0 Ctx.background] [Ctx.withNode 1 (Ctx.withNode 0 Ctx.background)]
      emptySt_ok CtxOk.background "a").trans (by decide)⟩

/-- C4 counterexample: `WithParams` stores the caller's map by reference and
takes no defensive copy, so mutating the map after the call changes the
result of a subsequent `Params` on the returned context — before the
mutation the resolve reads `"k" ↦ "v0"`, after it `"k" ↦ "v1"`. -/
theorem withParams_no_defensive_copy :
    mget (Params (WithParams (allocMap emptySt [("k", "v0")]).1 Ctx.background
        (allocMap emptySt [("k", "v0")]).2).1
      (some (WithParams (allocMap emptySt [("k", "v0")]).1 Ctx.background
        (allocMap emptySt [("k", "v0")]).2).2)).2 "k" = some "v0" ∧
    mget (Params (setMapKey (WithParams (allocMap emptySt [("k", "v0")]).1 Ctx.background
        (allocMap emptySt [("k", "v0")]).2).1 0 "k" "v1")
      (some (WithParams (allocMap emptySt [("k", "v0")]).1 Ctx.background
        (allocMap emptySt [("k", "v0")]).2).2)).2 "k" = some "v1" := by
  constructor
  · decide
  · decide

/-- C4 amended: `WithParams` mutates neither the contexts already resolvable
in the store nor any stored map — it only appends a node, and that node
records the caller's map *reference* (no defensive copy is taken); in
consequence the caller must not modify the map afterwards, as the source's
own documentation warns. -/
theorem withParams_frame (σ : St) (parent : Ctx) (mr : Nat) :
    (WithParams σ parent mr).1.maps = σ.maps ∧
    getNode (WithParams σ parent mr).1 σ.nodes.length
        = some { Parent := parent, ChildParams := mr, mergedParams := none } ∧
    ∀ c, CtxOk σ c → ctxSpec (WithParams σ parent mr).1 c = ctxSpec σ c :=
  ⟨rfl, getNode_withParams_new σ parent mr,
   fun c hc => ctxSpec_withParams σ parent mr hc⟩

/-- Witness for C4's amended statement at a concrete store. -/
theorem withParams_frame_witness :
    (WithParams emptySt Ctx.background 0).1.maps = emptySt.maps ∧
    ctxSpec (WithParams emptySt Ctx.background 0).1 Ctx.background
        = ctxSpec emptySt Ctx.background :=
  ⟨(withParams_frame emptySt Ctx.background 0).1,
   (withParams_frame emptySt Ctx.background 0).2.2 Ctx.background CtxOk.background⟩

end Slog
